import Mathlib

/-!
# Verification of the PersonalPrinz time-accounting core

Shallow embedding of the time-accounting engine of the PersonalPrinz
repository, together with theorems checking the natural-language
specification against it.

Embedding conventions:
* Python strings are modeled as `List Char` (`chars` converts a Lean string
  literal).  the Python `int(...)` builtin on strings is modeled for inputs consisting
  of an optional sign followed by decimal digits (the additional tolerance of
  `int` for surrounding whitespace and embedded underscores is not exercised
  by any input considered here).
* Calendar dates are modeled as day numbers (`Nat`) counted from a fixed
  Monday epoch, so `d % 7` matches Python `date.weekday()` (Monday = 0 …
  Sunday = 6).  The ISO rendering `date.isoformat()` is modeled by the
  decimal numeral `isoformatM` and `datetime.strptime(_, "%Y-%m-%d")` by
  numeral parsing `dateParse`; this stand-in preserves the two properties the
  code relies on: the rendering is injective and parsing inverts it, with
  parse failure on non-date strings.
* CSV rows of `Anwesenheit.csv` become the structure `Row`; Python dicts used
  as finite maps become association lists with unique keys (the loaders build
  them by overwriting, so keys are unique).
* `list.sort(key=...)` (a stable sort) is modeled by a stable insertion sort,
  which computes the same list for the total preorder used by the code.
-/

/-- Conversion from Lean string literals to the `List Char` model of Python
strings. -/
def chars (s : String) : List Char := s.data

/-- The whitespace characters stripped by the Python method `str.strip()`. -/
def isPySpace (c : Char) : Bool :=
  c = ' ' || c = '\t' || c = '\n' || c = '\r' || c = '\x0b' || c = '\x0c'

/-- Python `str.strip()`: drop leading and trailing whitespace. -/
def pyStrip (cs : List Char) : List Char :=
  ((cs.dropWhile isPySpace).reverse.dropWhile isPySpace).reverse

/-- Python `str.lower()` (the status labels compared by the code are ASCII). -/
def pyLower (cs : List Char) : List Char := cs.map Char.toLower

/-- Python `str.split(":")` with the single-character separator `':'`. -/
def splitColon : List Char → List (List Char)
  | [] => [[]]
  | c :: cs =>
    if c = ':' then [] :: splitColon cs
    else
      match splitColon cs with
      | [] => [[c]]
      | p :: ps => (c :: p) :: ps

/-- Numeric value of a list of decimal digit characters (most significant
first), as folded up by base-10 positional evaluation. -/
def valDigits (cs : List Char) : Nat :=
  cs.foldl (fun a c => 10 * a + (c.toNat - 48)) 0

/-- Parse a non-empty all-digit string to its numeric value; `none`
otherwise. -/
def digitsVal? (cs : List Char) : Option Nat :=
  if cs.isEmpty then none
  else if cs.all Char.isDigit then some (valDigits cs) else none

/-- Python `int(s)` for a string: an optional leading sign followed by one or
more decimal digits; every other shape raises, modeled as `none`. -/
def pyInt (s : List Char) : Option Int :=
  match s with
  | [] => none
  | c :: rest =>
    if c = '-' then (digitsVal? rest).map (fun n => -(n : Int))
    else if c = '+' then (digitsVal? rest).map (fun n => (n : Int))
    else (digitsVal? (c :: rest)).map (fun n => (n : Int))

/-- The decimal digit characters, used when rendering numbers (called only
with arguments below 10). -/
def digitChar : Nat → Char
  | 0 => '0' | 1 => '1' | 2 => '2' | 3 => '3' | 4 => '4'
  | 5 => '5' | 6 => '6' | 7 => '7' | 8 => '8' | _ => '9'

/-- Decimal rendering of a natural number, fuel-recursive so that it reduces
by evaluation (the fuel `n + 1` always suffices). -/
def natDigitsAux : Nat → Nat → List Char
  | 0, _ => []
  | fuel + 1, n =>
    if n < 10 then [digitChar n]
    else natDigitsAux fuel (n / 10) ++ [digitChar (n % 10)]

/-- Python `str(n)` / `f"{n}"` for a natural number. -/
def natDigits (n : Nat) : List Char := natDigitsAux (n + 1) n

/-- Python `f"{n:02d}"` for `n < 100`: pad a one-digit numeral with a leading
zero. -/
def pad2 (n : Nat) : List Char :=
  if n < 10 then '0' :: natDigits n else natDigits n

-- ---------------------------------------------------------------------------
-- gui/dialogs/attendance.py : time and format utilities
-- ---------------------------------------------------------------------------

/-- `_parse_hhmm` (attendance.py): split on `':'` into exactly two
`int`-parseable parts and return `h * 60 + m`; any failure yields `none`.
Note the source performs no range check on hours or minutes. -/
def parse_hhmm (s : List Char) : Option Int :=
  if s = [] then none
  else
    match splitColon s with
    | [h, m] =>
      match pyInt h, pyInt m with
      | some hv, some mv => some (hv * 60 + mv)
      | _, _ => none
    | _ => none

/-- `_fmt_signed` (attendance.py): render signed minutes as `±H:MM`
(`f"{sign}{mins//60}:{mins%60:02d}"` after taking the absolute value). -/
def fmt_signed (mins : Int) : List Char :=
  let sign : Char := if 0 ≤ mins then '+' else '-'
  let m := mins.natAbs
  sign :: natDigits (m / 60) ++ ':' :: pad2 (m % 60)

/-- `_net_work_minutes` (attendance.py): net working time with the "sticking"
break windows.  Absent/unparseable clock strings yield `none`; `end < start`
is treated as next-day. -/
def net_work_minutes (anf ende : List Char) : Option Int :=
  match parse_hhmm anf, parse_hhmm ende with
  | some a, some b0 =>
    let b := if b0 < a then b0 + 24 * 60 else b0
    let gross := b - a
    if gross ≤ 360 then some gross
    else if gross ≤ 390 then some 360
    else
      let gross_after_first := gross - 30
      if gross_after_first ≤ 540 then some gross_after_first
      else if gross_after_first ≤ 555 then some 540
      else some (gross_after_first - 15)
  | _, _ => none

/-- Reference tier definition written from the words of the specification (for the
refinement claim C1): either time absent ⇒ `none`; end treated as next-day
when `end < start`; `gross = end - start`; result `gross` when
`gross ≤ 360`; `360` when `360 < gross ≤ 390`; `adjusted = gross - 30` when
`390 < gross` and `adjusted ≤ 540`; `540` when `540 < adjusted ≤ 555`; and
`adjusted - 15` otherwise. -/
def netMinutes_specTiers (start ende : List Char) : Option Int :=
  match parse_hhmm start, parse_hhmm ende with
  | some a, some e0 =>
    let e := if e0 < a then e0 + 1440 else e0
    let gross := e - a
    let adjusted := gross - 30
    if gross ≤ 360 then some gross
    else if 360 < gross ∧ gross ≤ 390 then some 360
    else if 390 < gross ∧ adjusted ≤ 540 then some adjusted
    else if 540 < adjusted ∧ adjusted ≤ 555 then some 540
    else some (adjusted - 15)
  | _, _ => none

/-- `AttendanceModel._validate_time` (attendance.py): the edit-time check that
a non-empty clock string is `HH:MM` with hour 0–23 and minute 0–59. -/
def validate_time (s : List Char) : Bool :=
  if s = [] then true
  else
    match splitColon s with
    | [hh, mm] =>
      match pyInt hh, pyInt mm with
      | some h, some m => decide (0 ≤ h) && decide (h ≤ 23) && decide (0 ≤ m) && decide (m ≤ 59)
      | _, _ => false
    | _ => false

-- ---------------------------------------------------------------------------
-- Required minutes per (employee, date)
-- ---------------------------------------------------------------------------

/-- Association-list lookup, modeling Python `dict.get` (the dict loaders
overwrite on duplicate keys, so the maps looked up here have unique keys). -/
def alistGet? {β : Type} : List (List Char × β) → List Char → Option β
  | [], _ => none
  | (k, v) :: rest, key => if k = key then some v else alistGet? rest key

/-- Per-weekday minutes of one work-time model: the `[Mo..Fr]` list built by
`_load_model_day_minutes`, which always has exactly five entries. -/
def dayMinutes (t : Int × Int × Int × Int × Int) (wd : Nat) : Int :=
  match wd with
  | 0 => t.1
  | 1 => t.2.1
  | 2 => t.2.2.1
  | 3 => t.2.2.2.1
  | _ => t.2.2.2.2

/-- `_required_minutes_for` (attendance.py): weekend ⇒ 0; assigned model
present in the table ⇒ the minutes of that model for the weekday (the Python idiom
`v or 0` is the identity on integers); otherwise the 9/9/9/9/5-hour
fallback. -/
def required_minutes_for (model_day_minutes : List (List Char × (Int × Int × Int × Int × Int)))
    (pn_to_az : List (List Char × List Char)) (pn : List Char) (d : Nat) : Int :=
  let wd := d % 7
  if 5 ≤ wd then 0
  else
    let model := (alistGet? pn_to_az pn).getD []
    match (if model ≠ [] then alistGet? model_day_minutes model else none) with
    | some dm => dayMinutes dm wd
    | none => if wd ≤ 3 then 9 * 60 else 5 * 60

-- ---------------------------------------------------------------------------
-- Attendance rows and the ledger reader
-- ---------------------------------------------------------------------------

/-- One row of `Anwesenheit.csv`, with the fields used by the engine. -/
structure Row where
  Personalnummer : List Char
  Datum : List Char
  Status : List Char
  Anfang : List Char
  Ende : List Char
  Zeitkonto : List Char
  Urlaub : List Char
  Mehrarbeit : List Char
  FvD : List Char
deriving DecidableEq, Repr

/-- `datetime.strptime(s, "%Y-%m-%d").date()` in the day-number model of
dates: parse the numeral, failing on anything else. -/
def dateParse (cs : List Char) : Option Nat := digitsVal? cs

/-- `date.isoformat()` in the day-number model of dates. -/
def isoformatM (d : Nat) : List Char := natDigits d

/-- The `try:`-block of `_read_prev_cum_zk` that parses a stored `±H:MM`
balance text: strip, empty ⇒ 0, optional leading `'-'` then optional leading
`'+'`, split on `':'`, `int` both parts; any failure ⇒ 0. -/
def read_zk_text (zk : List Char) : Int :=
  let s1 := pyStrip zk
  if s1 = [] then 0
  else
    let sgn : Int := if s1.head? = some '-' then -1 else 1
    let s2 := if s1.head? = some '-' then s1.tail else s1
    let s3 := if s2.head? = some '+' then s2.tail else s2
    match splitColon s3 with
    | [h, m] =>
      match pyInt h, pyInt m with
      | some hv, some mv => sgn * (hv * 60 + mv)
      | _, _ => 0
    | _ => 0

/-- One step of the scan in `_read_prev_cum_zk`: keep the record with the
latest parseable date strictly before `d` for the employee, first record
winning ties (replacement only on a strictly later date). -/
def stepPrev (pn : List Char) (d : Nat) (acc : Option (Nat × Row)) (r : Row) :
    Option (Nat × Row) :=
  if pyStrip r.Personalnummer = pn then
    match dateParse r.Datum with
    | some rd =>
      if rd < d then
        match acc with
        | none => some (rd, r)
        | some (pd, pr) => if pd < rd then some (rd, r) else some (pd, pr)
      else acc
    | none => acc
  else acc

/-- The scan loop of `_read_prev_cum_zk`. -/
def bestPrev (rows : List Row) (pn : List Char) (d : Nat) : Option (Nat × Row) :=
  rows.foldl (stepPrev pn d) none

/-- `_read_prev_cum_zk` (attendance.py): cumulative balance of the latest of
the records of the employee dated strictly before `d`; 0 when there is none or its
balance text is empty or malformed. -/
def read_prev_cum_zk (rows : List Row) (pn : List Char) (d : Nat) : Int :=
  match bestPrev rows pn d with
  | none => 0
  | some (_, r) => read_zk_text r.Zeitkonto

-- ---------------------------------------------------------------------------
-- AttendanceModel._recompute_row (attendance.py)
-- ---------------------------------------------------------------------------

/-- `AttendanceModel._recompute_row` (attendance.py): consistent recomputation
of row `r` — day counters per status (Urlaub/FvD), then the balance
`Zeitkonto` and `Mehrarbeit` depending on the (trimmed, lowercased) status.
An unparseable `Datum` returns early, leaving the rows unchanged.  Note that
the `mehrarbeit` branch replaces an absent net time by 0 (`... or 0` in the
source), while the `abbau mehrarbeit` and default branches skip the balance
update when the net time is absent. -/
def recompute_row (model_day_minutes : List (List Char × (Int × Int × Int × Int × Int)))
    (pn_to_az : List (List Char × List Char))
    (rows : List Row) (r : Fin rows.length) : List Row :=
  let row := rows.get r
  let pn := pyStrip row.Personalnummer
  match dateParse row.Datum with
  | none => rows
  | some d =>
    let status := pyLower (pyStrip row.Status)
    let req := required_minutes_for model_day_minutes pn_to_az pn d
    let prev := read_prev_cum_zk rows pn d
    let row1 :=
      if status = chars "urlaub" then { row with Urlaub := chars "-1" }
      else if status = chars "fvd" then { row with FvD := chars "-1" }
      else row
    let row2 :=
      if status = chars "zeitausgleich" then
        { row1 with Zeitkonto := fmt_signed (prev - req) }
      else if status = chars "mehrarbeit" then
        let net := (net_work_minutes row.Anfang row.Ende).getD 0
        let over := max 0 (net - req)
        { row1 with
          Mehrarbeit := if over ≠ 0 then fmt_signed over else chars "+0:00",
          Zeitkonto := fmt_signed (prev + (net - req)) }
      else if status = chars "abbau mehrarbeit" ∨ status = chars "abbau_mehrarbeit" then
        let row1a := { row1 with Mehrarbeit := fmt_signed (-req) }
        match net_work_minutes row.Anfang row.Ende with
        | some net => { row1a with Zeitkonto := fmt_signed (prev + (net - req)) }
        | none => row1a
      else
        match net_work_minutes row.Anfang row.Ende with
        | some net => { row1 with Zeitkonto := fmt_signed (prev + (net - req)) }
        | none => row1
    rows.set r row2

-- ---------------------------------------------------------------------------
-- logic.py : generate_attendance_for_person (range materializer)
-- ---------------------------------------------------------------------------

/-- The key `(r["Personalnummer"], r["Datum"])` of the `exists_set` in
`generate_attendance_for_person` (logic.py) — taken raw, without stripping. -/
def genKey (r : Row) : List Char × List Char := (r.Personalnummer, r.Datum)

/-- The row appended by `generate_attendance_for_person` (logic.py): every
field blank except the employee number and the date. -/
def blankRow (pn : List Char) (d : Nat) : Row :=
  { Personalnummer := pn, Datum := isoformatM d, Status := [], Anfang := [],
    Ende := [], Zeitkonto := [], Urlaub := [], Mehrarbeit := [], FvD := [] }

/-- The `add_rows` list of `generate_attendance_for_person` (logic.py): one
blank row for each date of the span whose key is not in the precomputed
`exists_set` (the set is not updated inside the loop). -/
def gen_add_rows (pn : List Char) (span : List Nat) (existing : List Row) : List Row :=
  (span.filter (fun d => !((existing.map genKey).contains (pn, isoformatM d)))).map
    (blankRow pn)

/-- Stable insertion of `x` into a sorted list: `x` is placed before the first
element not below it, so equal keys keep their original relative order. -/
def insertRowSorted (le : Row → Row → Bool) (x : Row) : List Row → List Row
  | [] => [x]
  | y :: ys => if le x y then x :: y :: ys else y :: insertRowSorted le x ys

/-- Stable sort (model of the stable Python `list.sort(key=...)`; for a total
preorder every stable sort computes the same list). -/
def sortRowsBy (le : Row → Row → Bool) : List Row → List Row
  | [] => []
  | x :: xs => insertRowSorted le x (sortRowsBy le xs)

/-- Python string `<`: lexicographic comparison by code point. -/
def strLt : List Char → List Char → Bool
  | [], [] => false
  | [], _ :: _ => true
  | _ :: _, [] => false
  | a :: as_, b :: bs => if a = b then strLt as_ bs else decide (a < b)

/-- Python string `≤` (for the tuple sort key comparison). -/
def strLe (a b : List Char) : Bool := a = b || strLt a b

/-- The sort key order of `generate_attendance_for_person`: the tuple
`(r["Personalnummer"], r["Datum"])` compared lexicographically. -/
def rowKeyLe (r1 r2 : Row) : Bool :=
  if r1.Personalnummer = r2.Personalnummer then strLe r1.Datum r2.Datum
  else strLt r1.Personalnummer r2.Personalnummer

/-- `generate_attendance_for_person` (logic.py) on the in-memory record set:
append a blank row for every missing (employee, date) key of the span, then
sort by `(Personalnummer, Datum)`; when nothing is missing the record set is
left untouched (the file is not rewritten). -/
def generate_attendance_for_person (pn : List Char) (span : List Nat)
    (existing : List Row) : List Row :=
  let add := gen_add_rows pn span existing
  if add = [] then existing else sortRowsBy rowKeyLe (existing ++ add)

-- ---------------------------------------------------------------------------
-- gui/dialogs/mitarbeiter.py : ensure_attendance_span_for_person
-- ---------------------------------------------------------------------------

/-- The row created by `ensure_attendance_span_for_person` (mitarbeiter.py):
all fields blank except the key, with status `"Anwesend"` on weekdays and
`"Wochenende"` on Saturday/Sunday. -/
def newSpanRow (pn : List Char) (d : Nat) : Row :=
  { Personalnummer := pn, Datum := isoformatM d,
    Status := if d % 7 < 5 then chars "Anwesend" else chars "Wochenende",
    Anfang := [], Ende := [], Zeitkonto := [], Urlaub := [], Mehrarbeit := [],
    FvD := [] }

/-- The date loop of `ensure_attendance_span_for_person`: the `have` set is
updated as rows are appended, and the number of appended rows is returned. -/
def ensure_span_loop (pn : List Char) :
    List Nat → List Row → List (List Char × List Char) → List Row × Nat
  | [], rows, _ => (rows, 0)
  | d :: ds, rows, hv =>
    if (pn, isoformatM d) ∈ hv then ensure_span_loop pn ds rows hv
    else
      let out := ensure_span_loop pn ds (rows ++ [newSpanRow pn d])
        ((pn, isoformatM d) :: hv)
      (out.fst, out.snd + 1)

/-- `ensure_attendance_span_for_person` (mitarbeiter.py): for each date of the
span with no existing `(pn, date)` row, append a default row; returns the new
record set and the number of rows created.  The `have` set is built from
stripped fields; an empty employee number is a no-op. -/
def ensure_attendance_span_for_person (pn : List Char) (span : List Nat)
    (rows : List Row) : List Row × Nat :=
  if pn = [] then (rows, 0)
  else ensure_span_loop pn span rows
    (rows.map (fun r => (pyStrip r.Personalnummer, pyStrip r.Datum)))

-- ---------------------------------------------------------------------------
-- Concrete records used for witnesses and counterexamples
-- ---------------------------------------------------------------------------

/-- A Monday record with status overtime-accrual, blank clock fields and a
stored balance. -/
def exRowMehrarbeit : Row :=
  { Personalnummer := chars "1", Datum := chars "0", Status := chars "Mehrarbeit",
    Anfang := [], Ende := [], Zeitkonto := chars "+1:00", Urlaub := [],
    Mehrarbeit := [], FvD := [] }

/-- A Monday record with status presence, blank clock fields and a stored
balance. -/
def exRowAnwesend : Row :=
  { Personalnummer := chars "1", Datum := chars "0", Status := chars "Anwesend",
    Anfang := [], Ende := [], Zeitkonto := chars "+1:00", Urlaub := [],
    Mehrarbeit := [], FvD := [] }

/-- A day-0 record carrying balance +0:30. -/
def exRowDay0 : Row :=
  { Personalnummer := chars "1", Datum := chars "0", Status := chars "Anwesend",
    Anfang := [], Ende := [], Zeitkonto := chars "+0:30", Urlaub := [],
    Mehrarbeit := [], FvD := [] }

/-- A day-1 record carrying balance +1:30. -/
def exRowDay1 : Row :=
  { Personalnummer := chars "1", Datum := chars "1", Status := chars "Anwesend",
    Anfang := [], Ende := [], Zeitkonto := chars "+1:30", Urlaub := [],
    Mehrarbeit := [], FvD := [] }

/-- A day-1 record with status time-off-in-lieu. -/
def exRowZeitausgleich : Row :=
  { Personalnummer := chars "1", Datum := chars "1",
    Status := chars "Zeitausgleich", Anfang := [], Ende := [], Zeitkonto := [],
    Urlaub := [], Mehrarbeit := [], FvD := [] }

-- ---------------------------------------------------------------------------
-- Lemmas about digits, numerals, splitting and stripping
-- ---------------------------------------------------------------------------

lemma digitChar_isDigit {n : Nat} (h : n < 10) : (digitChar n).isDigit = true := by
  interval_cases n <;> decide

lemma digitChar_val {n : Nat} (h : n < 10) : (digitChar n).toNat - 48 = n := by
  interval_cases n <;> decide

lemma isDigit_ne_dash {c : Char} (h : c.isDigit = true) : c ≠ '-' :=
  fun he => absurd h (by subst he; decide)

lemma isDigit_ne_plus {c : Char} (h : c.isDigit = true) : c ≠ '+' :=
  fun he => absurd h (by subst he; decide)

lemma isDigit_ne_colon {c : Char} (h : c.isDigit = true) : c ≠ ':' :=
  fun he => absurd h (by subst he; decide)

lemma isPySpace_of_isDigit {c : Char} (h : c.isDigit = true) :
    isPySpace c = false := by
  have h1 : ¬(c = ' ') := fun he => absurd h (by subst he; decide)
  have h2 : ¬(c = '\t') := fun he => absurd h (by subst he; decide)
  have h3 : ¬(c = '\n') := fun he => absurd h (by subst he; decide)
  have h4 : ¬(c = '\r') := fun he => absurd h (by subst he; decide)
  have h5 : ¬(c = '\x0b') := fun he => absurd h (by subst he; decide)
  have h6 : ¬(c = '\x0c') := fun he => absurd h (by subst he; decide)
  simp [isPySpace, h1, h2, h3, h4, h5, h6]

lemma valDigits_append_singleton (xs : List Char) (c : Char) :
    valDigits (xs ++ [c]) = 10 * valDigits xs + (c.toNat - 48) := by
  simp [valDigits, List.foldl_append]

lemma natDigitsAux_spec : ∀ fuel n, n < fuel →
    natDigitsAux fuel n ≠ [] ∧ (∀ c ∈ natDigitsAux fuel n, c.isDigit = true) ∧
      valDigits (natDigitsAux fuel n) = n := by
  intro fuel
  induction fuel with
  | zero => intro n h; omega
  | succ f ih =>
    intro n h
    by_cases h10 : n < 10
    · simp only [natDigitsAux, if_pos h10]
      refine ⟨by simp, ?_, ?_⟩
      · intro c hc
        simp only [List.mem_singleton] at hc
        subst hc; exact digitChar_isDigit h10
      · show valDigits ([] ++ [digitChar n]) = n
        rw [valDigits_append_singleton, digitChar_val h10]
        simp [valDigits]
    · have hdiv : n / 10 < f := by
        have : n / 10 < n := Nat.div_lt_self (by omega) (by omega)
        omega
      obtain ⟨h1, h2, h3⟩ := ih (n / 10) hdiv
      simp only [natDigitsAux, if_neg h10]
      refine ⟨by simp [h1], ?_, ?_⟩
      · intro c hc
        rcases List.mem_append.mp hc with hmem | hmem
        · exact h2 c hmem
        · simp only [List.mem_singleton] at hmem
          subst hmem; exact digitChar_isDigit (Nat.mod_lt _ (by omega))
      · rw [valDigits_append_singleton, h3, digitChar_val (Nat.mod_lt _ (by omega))]
        omega

lemma natDigits_ne_nil (n : Nat) : natDigits n ≠ [] :=
  (natDigitsAux_spec (n + 1) n (by omega)).1

lemma natDigits_all_digits (n : Nat) : ∀ c ∈ natDigits n, c.isDigit = true :=
  (natDigitsAux_spec (n + 1) n (by omega)).2.1

lemma valDigits_natDigits (n : Nat) : valDigits (natDigits n) = n :=
  (natDigitsAux_spec (n + 1) n (by omega)).2.2

lemma digitsVal?_natDigits (n : Nat) : digitsVal? (natDigits n) = some n := by
  have h1 := natDigits_ne_nil n
  have h2 := natDigits_all_digits n
  simp only [digitsVal?]
  rw [if_neg (by simp [List.isEmpty_iff, h1]), if_pos (List.all_eq_true.mpr h2),
    valDigits_natDigits]

lemma pyInt_of_natDigits (n : Nat) : pyInt (natDigits n) = some (n : Int) := by
  rcases hcons : natDigits n with _ | ⟨c, cs⟩
  · exact absurd hcons (natDigits_ne_nil n)
  · have hc : c.isDigit = true := by
      apply natDigits_all_digits n; rw [hcons]; simp
    simp only [pyInt, if_neg (isDigit_ne_dash hc), if_neg (isDigit_ne_plus hc)]
    rw [← hcons, digitsVal?_natDigits]
    rfl

lemma valDigits_cons_zero (ds : List Char) : valDigits ('0' :: ds) = valDigits ds := by
  simp [valDigits]

lemma pad2_all_digits (n : Nat) : ∀ c ∈ pad2 n, c.isDigit = true := by
  intro c hc
  unfold pad2 at hc
  split at hc
  · rcases List.mem_cons.mp hc with h | h
    · subst h; decide
    · exact natDigits_all_digits n c h
  · exact natDigits_all_digits n c hc

lemma pad2_ne_nil (n : Nat) : pad2 n ≠ [] := by
  unfold pad2
  split
  · simp
  · exact natDigits_ne_nil n

lemma pyInt_pad2 (n : Nat) : pyInt (pad2 n) = some (n : Int) := by
  unfold pad2
  split
  · have hall : ('0' :: natDigits n).all Char.isDigit = true := by
      rw [List.all_eq_true]
      intro c hc
      rcases List.mem_cons.mp hc with h | h
      · subst h; decide
      · exact natDigits_all_digits n c h
    simp only [pyInt, if_neg (by decide : ¬('0' : Char) = '-'),
      if_neg (by decide : ¬('0' : Char) = '+')]
    simp only [digitsVal?]
    rw [if_neg (by simp), if_pos hall, valDigits_cons_zero, valDigits_natDigits]
    rfl
  · exact pyInt_of_natDigits n

lemma splitColon_no_colon {cs : List Char} (h : ∀ c ∈ cs, c ≠ ':') :
    splitColon cs = [cs] := by
  induction cs with
  | nil => rfl
  | cons c cs ih =>
    have hc : c ≠ ':' := h c (by simp)
    have hrec := ih (fun x hx => h x (by simp [hx]))
    simp only [splitColon, if_neg hc, hrec]

lemma splitColon_append {xs ys : List Char} (h : ∀ c ∈ xs, c ≠ ':') :
    splitColon (xs ++ ':' :: ys) = xs :: splitColon ys := by
  induction xs with
  | nil => simp [splitColon]
  | cons c cs ih =>
    have hc : c ≠ ':' := h c (by simp)
    have hrec := ih (fun x hx => h x (by simp [hx]))
    show splitColon (c :: (cs ++ ':' :: ys)) = (c :: cs) :: splitColon ys
    rw [splitColon, if_neg hc, hrec]

lemma dropWhile_eq_self_of {p : Char → Bool} {l : List Char}
    (h : ∀ c ∈ l, p c = false) : l.dropWhile p = l := by
  cases l with
  | nil => rfl
  | cons c cs => rw [List.dropWhile_cons, if_neg (by simp [h c (by simp)])]

lemma pyStrip_eq_self {l : List Char} (h : ∀ c ∈ l, isPySpace c = false) :
    pyStrip l = l := by
  unfold pyStrip
  rw [dropWhile_eq_self_of h,
    dropWhile_eq_self_of (fun c hc => h c (List.mem_reverse.mp hc)),
    List.reverse_reverse]

lemma fmt_signed_no_space (m : Int) : ∀ c ∈ fmt_signed m, isPySpace c = false := by
  intro c hc
  simp only [fmt_signed] at hc
  rcases List.mem_cons.mp hc with h | h
  · split at h <;> (subst h; decide)
  · rcases List.mem_append.mp h with h1 | h1
    · exact isPySpace_of_isDigit (natDigits_all_digits _ c h1)
    · rcases List.mem_cons.mp h1 with h2 | h2
      · subst h2; decide
      · exact isPySpace_of_isDigit (pad2_all_digits _ c h2)

lemma natDigits_head_digit (n : Nat) :
    ∃ c cs, natDigits n = c :: cs ∧ c.isDigit = true := by
  rcases hcons : natDigits n with _ | ⟨c, cs⟩
  · exact absurd hcons (natDigits_ne_nil n)
  · exact ⟨c, cs, rfl, by apply natDigits_all_digits n; rw [hcons]; simp⟩

lemma splitColon_fmt_body (h60 m60 : Nat) :
    splitColon (natDigits h60 ++ ':' :: pad2 m60) = [natDigits h60, pad2 m60] := by
  rw [splitColon_append (fun c hc => isDigit_ne_colon (natDigits_all_digits _ c hc)),
    splitColon_no_colon (fun c hc => isDigit_ne_colon (pad2_all_digits _ c hc))]

lemma read_zk_fmt (m : Int) : read_zk_text (fmt_signed m) = m := by
  have hstrip : pyStrip (fmt_signed m) = fmt_signed m :=
    pyStrip_eq_self (fmt_signed_no_space m)
  rcases le_or_lt 0 m with hm | hm
  · have hfmt : fmt_signed m =
        '+' :: (natDigits (m.natAbs / 60) ++ ':' :: pad2 (m.natAbs % 60)) := by
      simp [fmt_signed, hm]
    rw [hfmt] at hstrip
    have hc1 : ¬(('+' : Char) = '-') := by decide
    simp only [read_zk_text, hfmt, hstrip, List.head?_cons, Option.some.injEq, hc1,
      List.cons_ne_nil, eq_self_iff_true, if_true, if_false, ite_false, ite_true,
      List.tail_cons, splitColon_fmt_body, pyInt_of_natDigits, pyInt_pad2]
    omega
  · have hfmt : fmt_signed m =
        '-' :: (natDigits (m.natAbs / 60) ++ ':' :: pad2 (m.natAbs % 60)) := by
      simp [fmt_signed, not_le.mpr hm]
    have hheadbody : ¬((natDigits (m.natAbs / 60) ++ ':' ::
        pad2 (m.natAbs % 60)).head? = some '+') := by
      obtain ⟨c, cs, hc, hdig⟩ := natDigits_head_digit (m.natAbs / 60)
      rw [hc]
      simp only [List.cons_append, List.head?_cons, Option.some.injEq]
      exact isDigit_ne_plus hdig
    rw [hfmt] at hstrip
    simp only [read_zk_text, hfmt, hstrip, List.head?_cons, Option.some.injEq,
      List.cons_ne_nil, eq_self_iff_true, if_true, if_false, ite_false, ite_true,
      List.tail_cons]
    rw [if_neg hheadbody]
    simp only [splitColon_fmt_body, pyInt_of_natDigits, pyInt_pad2]
    omega

-- ---------------------------------------------------------------------------
-- Lemmas about the ledger reader scan
-- ---------------------------------------------------------------------------

lemma bestPrev_append (rows : List Row) (x : Row) (pn : List Char) (d : Nat) :
    bestPrev (rows ++ [x]) pn d = stepPrev pn d (bestPrev rows pn d) x := by
  simp [bestPrev, List.foldl_append]

/-- Each scan step either keeps the accumulator or switches to the new record,
which is then eligible. -/
lemma stepPrev_cases (pn : List Char) (d : Nat) (acc : Option (Nat × Row)) (x : Row) :
    stepPrev pn d acc x = acc ∨
      ∃ rd', stepPrev pn d acc x = some (rd', x) ∧ pyStrip x.Personalnummer = pn ∧
        dateParse x.Datum = some rd' ∧ rd' < d := by
  unfold stepPrev
  by_cases hpn : pyStrip x.Personalnummer = pn
  · rw [if_pos hpn]
    rcases hdp : dateParse x.Datum with _ | rd'
    · left; rfl
    · simp only []
      by_cases hlt : rd' < d
      · rw [if_pos hlt]
        rcases acc with _ | ⟨pd, pr⟩
        · right; exact ⟨rd', rfl, hpn, rfl, hlt⟩
        · simp only []
          by_cases hpd : pd < rd'
          · rw [if_pos hpd]; right; exact ⟨rd', rfl, hpn, rfl, hlt⟩
          · rw [if_neg hpd]; left; rfl
      · rw [if_neg hlt]; left; rfl
  · rw [if_neg hpn]; left; rfl

/-- Whatever the scan returns is an eligible record of the list. -/
lemma bestPrev_sound {rows : List Row} {pn : List Char} {d rd : Nat} {r : Row}
    (h : bestPrev rows pn d = some (rd, r)) :
    r ∈ rows ∧ pyStrip r.Personalnummer = pn ∧ dateParse r.Datum = some rd ∧
      rd < d := by
  induction rows using List.reverseRecOn generalizing rd r with
  | nil => simp [bestPrev] at h
  | append_singleton xs x ih =>
    rw [bestPrev_append] at h
    rcases stepPrev_cases pn d (bestPrev xs pn d) x with heq | ⟨rd', heq, hpn, hdp, hlt⟩
    · rw [heq] at h
      obtain ⟨hmem, hrest⟩ := ih h
      exact ⟨List.mem_append.mpr (Or.inl hmem), hrest⟩
    · rw [heq] at h
      simp only [Option.some.injEq, Prod.mk.injEq] at h
      obtain ⟨h1, h2⟩ := h
      subst h1; subst h2
      exact ⟨List.mem_append.mpr (Or.inr (by simp)), hpn, hdp, hlt⟩

/-- If no record of the employee has a parseable date strictly before `d`, the
scan returns nothing. -/
lemma bestPrev_none {rows : List Row} {pn : List Char} {d : Nat}
    (h : ∀ r ∈ rows, pyStrip r.Personalnummer = pn →
      ∀ rd, dateParse r.Datum = some rd → ¬rd < d) :
    bestPrev rows pn d = none := by
  induction rows using List.reverseRecOn with
  | nil => rfl
  | append_singleton xs x ih =>
    rw [bestPrev_append,
      ih (fun r hr hpn rd hdp => h r (List.mem_append.mpr (Or.inl hr)) hpn rd hdp)]
    unfold stepPrev
    by_cases hpn : pyStrip x.Personalnummer = pn
    · rw [if_pos hpn]
      rcases hdp : dateParse x.Datum with _ | rdx
      · rfl
      · simp only []
        rw [if_neg (h x (List.mem_append.mpr (Or.inr (by simp))) hpn rdx hdp)]
    · rw [if_neg hpn]

/-- If `r` is an eligible record of the employee and every other eligible
record has a strictly earlier date, the scan returns `r` with its date. -/
lemma bestPrev_max {rows : List Row} {pn : List Char} {d rd : Nat} {r : Row}
    (hmem : r ∈ rows) (hpn : pyStrip r.Personalnummer = pn)
    (hdp : dateParse r.Datum = some rd) (hlt : rd < d)
    (hmax : ∀ r' ∈ rows, pyStrip r'.Personalnummer = pn →
      ∀ rd', dateParse r'.Datum = some rd' → rd' < d → r' ≠ r → rd' < rd) :
    bestPrev rows pn d = some (rd, r) := by
  induction rows using List.reverseRecOn with
  | nil => simp at hmem
  | append_singleton xs x ih =>
    rw [bestPrev_append]
    by_cases hmemx : r ∈ xs
    · have hbest := ih hmemx
        (fun r' hr' hpn' rd' hdp' hlt' hne' =>
          hmax r' (List.mem_append.mpr (Or.inl hr')) hpn' rd' hdp' hlt' hne')
      rw [hbest]
      unfold stepPrev
      by_cases hpnx : pyStrip x.Personalnummer = pn
      · rw [if_pos hpnx]
        rcases hdpx : dateParse x.Datum with _ | rdx
        · rfl
        · simp only []
          by_cases hltx : rdx < d
          · rw [if_pos hltx]
            by_cases hxr : x = r
            · subst hxr
              rw [hdp] at hdpx
              simp only [Option.some.injEq] at hdpx
              rw [if_neg (by omega)]
            · have hlt2 := hmax x (List.mem_append.mpr (Or.inr (by simp))) hpnx
                rdx hdpx hltx hxr
              rw [if_neg (by omega)]
          · rw [if_neg hltx]
      · rw [if_neg hpnx]
    · have hx : x = r := by
        rcases List.mem_append.mp hmem with h1 | h1
        · exact absurd h1 hmemx
        · exact (List.mem_singleton.mp h1).symm
      subst hx
      rcases hacc : bestPrev xs pn d with _ | ⟨pd, pr⟩
      · unfold stepPrev
        rw [if_pos hpn, hdp]
        simp only []
        rw [if_pos hlt]
      · obtain ⟨hprmem, hprpn, hprdp, hprlt⟩ := bestPrev_sound hacc
        have hne : pr ≠ x := fun he => hmemx (he ▸ hprmem)
        have hlt2 := hmax pr (List.mem_append.mpr (Or.inl hprmem)) hprpn pd hprdp
          hprlt hne
        unfold stepPrev
        rw [if_pos hpn, hdp]
        simp only []
        rw [if_pos hlt, if_pos hlt2]

lemma read_zk_text_of_strip_nil {zk : List Char} (h : pyStrip zk = []) :
    read_zk_text zk = 0 := by
  simp [read_zk_text, h]

-- ---------------------------------------------------------------------------
-- Lemmas about the range materializers
-- ---------------------------------------------------------------------------

lemma mem_insertRowSorted {le : Row → Row → Bool} {x a : Row} :
    ∀ {l : List Row}, a ∈ insertRowSorted le x l ↔ a = x ∨ a ∈ l := by
  intro l
  induction l with
  | nil => simp [insertRowSorted]
  | cons y ys ih =>
    unfold insertRowSorted
    by_cases hle : le x y
    · rw [if_pos hle]; simp
    · rw [if_neg hle]
      simp only [List.mem_cons, ih]
      tauto

lemma mem_sortRowsBy {le : Row → Row → Bool} {a : Row} :
    ∀ {l : List Row}, a ∈ sortRowsBy le l ↔ a ∈ l := by
  intro l
  induction l with
  | nil => simp [sortRowsBy]
  | cons y ys ih =>
    unfold sortRowsBy
    rw [mem_insertRowSorted]
    simp [ih]

/-- After one run of the materializer, every date of the span has its
`(employee, date)` key present in the record set. -/
lemma generate_covers (pn : List Char) (span : List Nat) (existing : List Row) :
    ∀ d ∈ span,
      (pn, isoformatM d) ∈ (generate_attendance_for_person pn span existing).map genKey := by
  intro d hd
  unfold generate_attendance_for_person
  by_cases hadd : gen_add_rows pn span existing = []
  · rw [if_pos hadd]
    have hfil : span.filter
        (fun d => !((existing.map genKey).contains (pn, isoformatM d))) = [] :=
      List.map_eq_nil_iff.mp hadd
    have hnp := List.filter_eq_nil_iff.mp hfil d hd
    have hcont : (existing.map genKey).contains (pn, isoformatM d) = true := by
      rcases Bool.eq_false_or_eq_true ((existing.map genKey).contains (pn, isoformatM d))
        with ht | hf
      · exact ht
      · exact absurd (by rw [hf]; rfl) hnp
    exact List.elem_iff.mp hcont
  · rw [if_neg hadd]
    by_cases hk : (pn, isoformatM d) ∈ existing.map genKey
    · obtain ⟨r, hr, hkey⟩ := List.mem_map.mp hk
      exact List.mem_map.mpr
        ⟨r, mem_sortRowsBy.mpr (List.mem_append.mpr (Or.inl hr)), hkey⟩
    · have hcont : (existing.map genKey).contains (pn, isoformatM d) = false := by
        rcases Bool.eq_false_or_eq_true
          ((existing.map genKey).contains (pn, isoformatM d)) with ht | hf
        · exact absurd (List.elem_iff.mp ht) hk
        · exact hf
      have hdfil : d ∈ span.filter
          (fun d => !((existing.map genKey).contains (pn, isoformatM d))) :=
        List.mem_filter.mpr ⟨hd, by rw [hcont]; rfl⟩
      have hbmem : blankRow pn d ∈ gen_add_rows pn span existing :=
        List.mem_map.mpr ⟨d, hdfil, rfl⟩
      exact List.mem_map.mpr
        ⟨blankRow pn d,
          mem_sortRowsBy.mpr (List.mem_append.mpr (Or.inr hbmem)), rfl⟩

/-- When every date of the span is already covered, nothing is added. -/
lemma gen_add_rows_of_covers {pn : List Char} {span : List Nat} {rows : List Row}
    (h : ∀ d ∈ span, (pn, isoformatM d) ∈ rows.map genKey) :
    gen_add_rows pn span rows = [] := by
  unfold gen_add_rows
  rw [List.filter_eq_nil_iff.mpr ?_]
  · rfl
  · intro d hd
    rw [Bool.not_eq_true', Bool.not_eq_false]
    exact List.elem_iff.mpr (h d hd)

/-- Every row present after the span loop was either already there or is a
freshly created default row for one of the dates of the span. -/
lemma ensure_span_loop_mem {pn : List Char} :
    ∀ (ds : List Nat) (rows : List Row) (hv : List (List Char × List Char))
      (row : Row), row ∈ (ensure_span_loop pn ds rows hv).fst →
      row ∈ rows ∨ ∃ d ∈ ds, row = newSpanRow pn d := by
  intro ds
  induction ds with
  | nil => intro rows hv row h; exact Or.inl h
  | cons d ds ih =>
    intro rows hv row h
    unfold ensure_span_loop at h
    by_cases hk : (pn, isoformatM d) ∈ hv
    · rw [if_pos hk] at h
      rcases ih rows hv row h with h1 | ⟨d', hd', he⟩
      · exact Or.inl h1
      · exact Or.inr ⟨d', by simp [hd'], he⟩
    · rw [if_neg hk] at h
      rcases ih (rows ++ [newSpanRow pn d]) ((pn, isoformatM d) :: hv) row h with
        h1 | ⟨d', hd', he⟩
      · rcases List.mem_append.mp h1 with h2 | h2
        · exact Or.inl h2
        · exact Or.inr ⟨d, by simp, List.mem_singleton.mp h2⟩
      · exact Or.inr ⟨d', by simp [hd'], he⟩

-- ---------------------------------------------------------------------------
-- Lemmas about net time and the status rule engine
-- ---------------------------------------------------------------------------

lemma net_work_minutes_none_left {a e : List Char} (h : parse_hhmm a = none) :
    net_work_minutes a e = none := by
  unfold net_work_minutes
  rw [h]

lemma net_work_minutes_none_right {a e : List Char} (h : parse_hhmm e = none) :
    net_work_minutes a e = none := by
  unfold net_work_minutes
  rw [h]
  rcases parse_hhmm a with _ | v <;> rfl

lemma parse_hhmm_nil : parse_hhmm [] = none := rfl

/-- The balance field of row `r` after `_recompute_row` when the status is
neither `zeitausgleich` nor `mehrarbeit` and the net time is absent: it is
left at its stored value. -/
lemma recompute_row_keeps_zk
    (model_day_minutes : List (List Char × (Int × Int × Int × Int × Int)))
    (pn_to_az : List (List Char × List Char))
    (rows : List Row) (r : Fin rows.length)
    (hs1 : pyLower (pyStrip (rows.get r).Status) ≠ chars "zeitausgleich")
    (hs2 : pyLower (pyStrip (rows.get r).Status) ≠ chars "mehrarbeit")
    (hnet : net_work_minutes (rows.get r).Anfang (rows.get r).Ende = none) :
    ((recompute_row model_day_minutes pn_to_az rows r).get? r.val).map Row.Zeitkonto
      = some (rows.get r).Zeitkonto := by
  unfold recompute_row
  rcases hdp : dateParse (rows.get r).Datum with _ | d
  · simp only [hdp]
    rw [List.get?_eq_get r.isLt]
    rfl
  · simp only [hdp, hnet]
    rw [if_neg hs1, if_neg hs2]
    by_cases habb : pyLower (pyStrip (rows.get r).Status) = chars "abbau mehrarbeit" ∨
        pyLower (pyStrip (rows.get r).Status) = chars "abbau_mehrarbeit"
    · rw [if_pos habb, List.get?_set_eq_of_lt _ r.isLt]
      split_ifs <;> rfl
    · rw [if_neg habb, List.get?_set_eq_of_lt _ r.isLt]
      split_ifs <;> rfl

/-- The balance field of row `r` after `_recompute_row` when the status is
`zeitausgleich`: previous balance minus required minutes, independent of the
clock fields. -/
lemma recompute_row_zeitausgleich
    (model_day_minutes : List (List Char × (Int × Int × Int × Int × Int)))
    (pn_to_az : List (List Char × List Char))
    (rows : List Row) (r : Fin rows.length) (d : Nat)
    (hst : pyLower (pyStrip (rows.get r).Status) = chars "zeitausgleich")
    (hdp : dateParse (rows.get r).Datum = some d) :
    ((recompute_row model_day_minutes pn_to_az rows r).get? r.val).map Row.Zeitkonto
      = some (fmt_signed
          (read_prev_cum_zk rows (pyStrip (rows.get r).Personalnummer) d -
            required_minutes_for model_day_minutes pn_to_az
              (pyStrip (rows.get r).Personalnummer) d)) := by
  unfold recompute_row
  simp only [hdp]
  rw [hst]
  have hne1 : chars "zeitausgleich" ≠ chars "urlaub" := by decide
  have hne2 : chars "zeitausgleich" ≠ chars "fvd" := by decide
  rw [if_neg hne1, if_neg hne2, if_pos rfl, List.get?_set_eq_of_lt _ r.isLt]
  rfl

example : read_zk_text (chars "+1:30") = 90 := by decide
example : read_zk_text (chars "-1:05") = -65 := by decide
example : read_zk_text (chars "1:05") = 65 := by decide
example : read_zk_text (chars "") = 0 := by decide
example : read_zk_text (chars "abc") = 0 := by decide
example : fmt_signed 0 = chars "+0:00" := by decide
example : fmt_signed (-540) = chars "-9:00" := by decide
example : parse_hhmm (chars "06:31") = some 391 := by decide
example : net_work_minutes (chars "00:00") (chars "10:00") = some 555 := by decide
example : net_work_minutes (chars "22:00") (chars "02:00") = some 240 := by decide

-- ---------------------------------------------------------------------------
-- Claim theorems
-- ---------------------------------------------------------------------------

/-- C1: `netMinutes(start, end)` equals the reference tier definition: if
either time is absent the result is `none`; otherwise, with end treated as
next-day when `end < start` (add 1440 minutes) and `gross = end - start`, the
result is `gross` when `gross ≤ 360`; `360` when `360 < gross ≤ 390`;
`adjusted = gross - 30` when `390 < gross` and `adjusted ≤ 540`; `540` when
`540 < adjusted ≤ 555`; and `adjusted - 15` otherwise. -/
theorem C1_net_matches_spec_tiers :
    ∀ anf ende : List Char,
      net_work_minutes anf ende = netMinutes_specTiers anf ende := by
  intro anf ende
  unfold net_work_minutes netMinutes_specTiers
  rcases parse_hhmm anf with _ | a
  · rfl
  · rcases parse_hhmm ende with _ | b0
    · rfl
    · simp only []
      split_ifs <;> simp only [Option.some.injEq] <;> omega

/-- C3 as stated is false at gross duration 600: the code yields a net of 555
minutes (both breaks deducted), not 570. -/
theorem C3_counterexample :
    net_work_minutes (chars "00:00") (chars "10:00") = some 555 ∧
      (555 : Int) ≠ 570 := by decide

/-- C3 (amended): for gross durations of 360, 390, 391, 570, 585, and 600
minutes, `netMinutes` yields net values 360, 360, 361, 540, 540, and 555
respectively (at 600 both breaks, 45 minutes, are already deducted). -/
theorem C3_tier_values :
    net_work_minutes (chars "00:00") (chars "06:00") = some 360 ∧
    net_work_minutes (chars "00:00") (chars "06:30") = some 360 ∧
    net_work_minutes (chars "00:00") (chars "06:31") = some 361 ∧
    net_work_minutes (chars "00:00") (chars "09:30") = some 540 ∧
    net_work_minutes (chars "00:00") (chars "09:45") = some 540 ∧
    net_work_minutes (chars "00:00") (chars "10:00") = some 555 := by decide

/-- C2 as stated is false for the overtime-accrual status `mehrarbeit`: with
both clock fields absent the code substitutes a net of 0 and rewrites the
balance (here to previous + (0 - 540) = "-9:00"), instead of leaving the
stored "+1:00". -/
theorem C2_counterexample :
    ((recompute_row [] [] [exRowMehrarbeit] ⟨0, Nat.one_pos⟩).get? 0).map
        Row.Zeitkonto = some (chars "-9:00") ∧
      some (chars "-9:00") ≠ some exRowMehrarbeit.Zeitkonto := by decide

/-- C2 (amended): for every attendance record whose clock-in or clock-out is
absent and whose status is anything other than time-off-in-lieu
(`zeitausgleich`) and overtime-accrual (`mehrarbeit`) — in particular
presence, vacation, special-duty and overtime-compensation — `_recompute_row`
leaves the balance field of the record at its prior stored value.  (For
overtime-accrual the balance is recomputed with net treated as 0.) -/
theorem C2_balance_kept_when_clock_absent
    (model_day_minutes : List (List Char × (Int × Int × Int × Int × Int)))
    (pn_to_az : List (List Char × List Char))
    (rows : List Row) (r : Fin rows.length)
    (habs : (rows.get r).Anfang = [] ∨ (rows.get r).Ende = [])
    (hs1 : pyLower (pyStrip (rows.get r).Status) ≠ chars "zeitausgleich")
    (hs2 : pyLower (pyStrip (rows.get r).Status) ≠ chars "mehrarbeit") :
    ((recompute_row model_day_minutes pn_to_az rows r).get? r.val).map
      Row.Zeitkonto = some (rows.get r).Zeitkonto := by
  apply recompute_row_keeps_zk _ _ _ _ hs1 hs2
  rcases habs with h | h
  · exact net_work_minutes_none_left (by rw [h]; rfl)
  · exact net_work_minutes_none_right (by rw [h]; rfl)

/-- Witness for C2: a presence record with absent clock fields keeps its
stored balance "+1:00". -/
theorem C2_witness :
    ((recompute_row [] [] [exRowAnwesend] ⟨0, Nat.one_pos⟩).get? 0).map
      Row.Zeitkonto = some (chars "+1:00") := by
  have h := C2_balance_kept_when_clock_absent [] [] [exRowAnwesend]
    ⟨0, Nat.one_pos⟩ (Or.inl rfl) (by decide) (by decide)
  exact h.trans (by decide)

/-- C4: `previousBalance(records, date)` returns the parsed balance of the
record of the employee with the maximum date strictly earlier than the target date
(ties excluded); it returns 0 when no such record exists, and the balance
parser returns 0 on an empty balance field (and, by definition, on malformed
text). -/
theorem C4_previous_balance (rows : List Row) (pn : List Char) (d : Nat) :
    ((∀ r ∈ rows, pyStrip r.Personalnummer = pn →
        ∀ rd, dateParse r.Datum = some rd → ¬rd < d) →
      read_prev_cum_zk rows pn d = 0) ∧
    (∀ r rd, r ∈ rows → pyStrip r.Personalnummer = pn →
      dateParse r.Datum = some rd → rd < d →
      (∀ r' ∈ rows, pyStrip r'.Personalnummer = pn →
        ∀ rd', dateParse r'.Datum = some rd' → rd' < d → r' ≠ r → rd' < rd) →
      read_prev_cum_zk rows pn d = read_zk_text r.Zeitkonto) ∧
    (∀ zk, pyStrip zk = [] → read_zk_text zk = 0) := by
  refine ⟨?_, ?_, fun zk h => read_zk_text_of_strip_nil h⟩
  · intro h
    unfold read_prev_cum_zk
    rw [bestPrev_none h]
  · intro r rd hmem hpn hdp hlt hmax
    unfold read_prev_cum_zk
    rw [bestPrev_max hmem hpn hdp hlt hmax]

/-- Witness for C4: among two records dated 0 and 1 the reader picks the
day-1 balance "+1:30" = 90 minutes when asked before day 5. -/
theorem C4_witness :
    read_prev_cum_zk [exRowDay0, exRowDay1] (chars "1") 5 = 90 := by
  have h := (C4_previous_balance [exRowDay0, exRowDay1] (chars "1") 5).2.1
    exRowDay1 1 (by decide) (by decide) (by decide) (by decide) (by decide)
  exact h.trans (by decide)

/-- C5: for every record whose status is time-off-in-lieu
(`zeitausgleich`), `_recompute_row` sets the balance to previous balance
minus required minutes for that date, regardless of the clock-in and
clock-out values (which are not constrained by any hypothesis). -/
theorem C5_zeitausgleich
    (model_day_minutes : List (List Char × (Int × Int × Int × Int × Int)))
    (pn_to_az : List (List Char × List Char))
    (rows : List Row) (r : Fin rows.length) (d : Nat)
    (hst : pyLower (pyStrip (rows.get r).Status) = chars "zeitausgleich")
    (hdp : dateParse (rows.get r).Datum = some d) :
    ((recompute_row model_day_minutes pn_to_az rows r).get? r.val).map
      Row.Zeitkonto
      = some (fmt_signed
          (read_prev_cum_zk rows (pyStrip (rows.get r).Personalnummer) d -
            required_minutes_for model_day_minutes pn_to_az
              (pyStrip (rows.get r).Personalnummer) d)) :=
  recompute_row_zeitausgleich model_day_minutes pn_to_az rows r d hst hdp

/-- Witness for C5: previous +0:30 on day 0, required 540 on day 1 (Tuesday
fallback), so the time-off-in-lieu balance becomes 30 - 540 = "-8:30". -/
theorem C5_witness :
    ((recompute_row [] [] [exRowDay0, exRowZeitausgleich]
        ⟨1, by decide⟩).get? 1).map Row.Zeitkonto = some (chars "-8:30") := by
  have h := C5_zeitausgleich [] [] [exRowDay0, exRowZeitausgleich]
    ⟨1, by decide⟩ 1 (by decide) (by decide)
  exact h.trans (by decide)

/-- C6: `requiredMinutes(employee, date)` returns 0 for every Saturday and
Sunday; for every weekday of an employee with no assigned work-time model (or
one absent from the model table), it returns 540 for Monday through Thursday
and 300 for Friday. -/
theorem C6_required_minutes
    (model_day_minutes : List (List Char × (Int × Int × Int × Int × Int)))
    (pn_to_az : List (List Char × List Char)) (pn : List Char) (d : Nat) :
    (5 ≤ d % 7 → required_minutes_for model_day_minutes pn_to_az pn d = 0) ∧
    (d % 7 < 5 →
      ((alistGet? pn_to_az pn).getD [] = [] ∨
        alistGet? model_day_minutes ((alistGet? pn_to_az pn).getD []) = none) →
      required_minutes_for model_day_minutes pn_to_az pn d =
        if d % 7 ≤ 3 then 540 else 300) := by
  constructor
  · intro h
    unfold required_minutes_for
    rw [if_pos h]
  · intro hwd hfb
    simp only [required_minutes_for]
    rw [if_neg (by omega)]
    have hsel : (if (alistGet? pn_to_az pn).getD [] ≠ [] then
        alistGet? model_day_minutes ((alistGet? pn_to_az pn).getD []) else none)
        = none := by
      split_ifs with hm
      · rcases hfb with h | h
        · exact absurd h hm
        · exact h
      · rfl
    rw [hsel]
    split_ifs <;> norm_num

/-- Witness for C6: with empty model tables, Saturday (day 5) requires 0,
Monday (day 0) requires 540, Friday (day 4) requires 300. -/
theorem C6_witness :
    required_minutes_for [] [] (chars "1") 5 = 0 ∧
    required_minutes_for [] [] (chars "1") 0 = 540 ∧
    required_minutes_for [] [] (chars "1") 4 = 300 := by
  refine ⟨(C6_required_minutes [] [] (chars "1") 5).1 (by decide), ?_, ?_⟩
  · exact ((C6_required_minutes [] [] (chars "1") 0).2 (by decide)
      (Or.inl rfl)).trans (by decide)
  · exact ((C6_required_minutes [] [] (chars "1") 4).2 (by decide)
      (Or.inl rfl)).trans (by decide)

/-- C7 as stated is false for the cited materializer
`generate_attendance_for_person` (logic.py): the row it creates for a weekday
has a blank status, not "Anwesend" and not a weekend marker. -/
theorem C7_counterexample :
    (generate_attendance_for_person (chars "00000001") [0] []).map Row.Status
        = [[]] ∧
      ([] : List Char) ≠ chars "Anwesend" ∧
      ([] : List Char) ≠ chars "Wochenende" := by decide

/-- C7 (amended): rows created by the materializer
`ensure_attendance_span_for_person` (mitarbeiter.py) carry status "Anwesend"
on weekdays and "Wochenende" on Saturday/Sunday, with blank clock-in,
clock-out and balance fields; the materializer in logic.py instead creates
rows with every field blank, including the status. -/
theorem C7_span_row_defaults (pn : List Char) (span : List Nat)
    (rows : List Row) (row : Row)
    (hmem : row ∈ (ensure_attendance_span_for_person pn span rows).fst)
    (hnew : row ∉ rows) :
    ∃ d ∈ span,
      row.Datum = isoformatM d ∧
      row.Status = (if d % 7 < 5 then chars "Anwesend" else chars "Wochenende") ∧
      row.Anfang = [] ∧ row.Ende = [] ∧ row.Zeitkonto = [] := by
  unfold ensure_attendance_span_for_person at hmem
  by_cases hpn : pn = []
  · rw [if_pos hpn] at hmem
    exact absurd hmem hnew
  · rw [if_neg hpn] at hmem
    rcases ensure_span_loop_mem span rows _ row hmem with h | ⟨d, hd, he⟩
    · exact absurd h hnew
    · subst he
      exact ⟨d, hd, rfl, rfl, rfl, rfl, rfl⟩

/-- Witness for C7: over a span holding Monday (day 0) and Saturday (day 5),
the created row dated Saturday carries the weekend status — its date forces
the existential to pick d = 5. -/
theorem C7_witness :
    ∃ d ∈ [(0 : Nat), 5],
      (newSpanRow (chars "1") 5).Datum = isoformatM d ∧
      (newSpanRow (chars "1") 5).Status =
        (if d % 7 < 5 then chars "Anwesend" else chars "Wochenende") ∧
      (newSpanRow (chars "1") 5).Anfang = [] ∧
      (newSpanRow (chars "1") 5).Ende = [] ∧
      (newSpanRow (chars "1") 5).Zeitkonto = [] :=
  C7_span_row_defaults (chars "1") [0, 5] [] (newSpanRow (chars "1") 5)
    (by decide) (by decide)

/-- C8: the range materializer is idempotent over any date span — in
particular its default span, today through December 31 — : running it a
second time returns the record set unchanged and its `add_rows` list is
empty (zero new rows). -/
theorem C8_generate_idempotent (pn : List Char) (span : List Nat)
    (existing : List Row) :
    generate_attendance_for_person pn span
        (generate_attendance_for_person pn span existing) =
      generate_attendance_for_person pn span existing ∧
    gen_add_rows pn span (generate_attendance_for_person pn span existing)
      = [] := by
  have hadd := gen_add_rows_of_covers (generate_covers pn span existing)
  refine ⟨?_, hadd⟩
  show (if gen_add_rows pn span (generate_attendance_for_person pn span existing)
          = [] then
        generate_attendance_for_person pn span existing
      else
        sortRowsBy rowKeyLe
          (generate_attendance_for_person pn span existing ++
            gen_add_rows pn span (generate_attendance_for_person pn span existing)))
      = generate_attendance_for_person pn span existing
  rw [if_pos hadd]

/-- C9 as stated is false: "24:00" is not an in-range HH:MM time of day, yet
the parser accepts it (no range check), so `netMinutes` computes a value
instead of `none`. -/
theorem C9_counterexample :
    net_work_minutes (chars "24:00") (chars "30:00") = some 360 ∧
      some (360 : Int) ≠ (none : Option Int) := by decide

/-- C9 (amended): a clock string that does not split into exactly two
':'-separated integer-parseable parts is treated as absent — `netMinutes`
returns `none` whichever side it appears on — but the parser performs no
0–23/0–59 range check; the range rule is enforced only at edit time by
`_validate_time`, which rejects "24:00". -/
theorem C9_malformed_treated_absent :
    (∀ anf ende : List Char,
      parse_hhmm anf = none ∨ parse_hhmm ende = none →
        net_work_minutes anf ende = none) ∧
    validate_time (chars "24:00") = false := by
  constructor
  · intro anf ende h
    rcases h with h | h
    · exact net_work_minutes_none_left h
    · exact net_work_minutes_none_right h
  · decide

/-- Witness for C9: the malformed clock string "7:5x" makes `netMinutes`
absent. -/
theorem C9_witness :
    net_work_minutes (chars "7:5x") (chars "08:00") = none :=
  C9_malformed_treated_absent.1 (chars "7:5x") (chars "08:00")
    (Or.inl (by decide))

/-- C10: for every integer number of minutes `m`, formatting `m` as signed
"±H:MM" text and parsing it back with the balance parser of the ledger yields `m`
again, and `m = 0` formats as "+0:00". -/
theorem C10_fmt_parse_roundtrip :
    (∀ m : Int, read_zk_text (fmt_signed m) = m) ∧
      fmt_signed 0 = chars "+0:00" :=
  ⟨read_zk_fmt, by decide⟩
